import Mathlib

/-!
Verification of the session/stream orchestration engine of the slopbot
repository (a Discord bridge to the Claude Agent SDK), against its
natural-language specification.

The development shallowly embeds the relevant TypeScript source:

* `src/asyncChannel.ts` — the Handoff Channel (`createAsyncChannel`);
* `src/messageSplitter.ts` — `splitMessageSimple` / `findSplitPoint`;
* `src/planApprovalParser.ts` — `parsePlanApproval`;
* `src/messageHandler.ts` — `handleThreadMessage`, `handleInteractiveQuestion`,
  `buildAnswersFromSelections`, the busy gate and the session-restore path;
* `src/sessionManager.ts` — `abortBgTask`, `abortAllBgTasks`,
  `cleanupStaleSessions`;
* `src/sessionStore.ts` — the persisted `threadId → {sessionId, cost, cwd}`
  record store;
* `src/agentRunner.ts` — `runAgent` entry, the `finally` teardown block,
  the `result` handler for `error_max_turns`, and `doEdit`.

JavaScript strings are modelled as Lean `String` (or `List Char` where
character-level indexing matters), JS `Map`/`Set` (which preserve insertion
order) as association lists / duplicate-free lists, and monetary amounts
(JS numbers used only additively and for storage round-trips here) as `Rat`.
-/

/-! ## Handoff Channel (`src/asyncChannel.ts`, `createAsyncChannel`)

State: `buffer` of pushed-but-unconsumed values, the number of currently
awaiting consumers (`waiters`; each corresponds to one pending `next()`
promise), and the `closed` flag.  Effects that in JS happen through promise
resolution are returned explicitly alongside the new state. -/

structure AsyncChannel (α : Type) where
  buffer : List α
  waiters : Nat
  closed : Bool
deriving DecidableEq, Repr

/-- Outcome of a `push`: the value was appended to the buffer, handed
directly to an awaiting consumer, or silently dropped (channel closed). -/
inductive PushEffect (α : Type) where
  | buffered
  | delivered (v : α)
  | dropped
deriving DecidableEq, Repr

/-- `push(value)`: no-op if closed; otherwise resolve the first waiter
immediately if one is awaiting, else buffer the value. -/
def AsyncChannel.push (c : AsyncChannel α) (v : α) :
    AsyncChannel α × PushEffect α :=
  if c.closed then (c, .dropped)
  else if 0 < c.waiters then
    ({ c with waiters := c.waiters - 1 }, .delivered v)
  else
    ({ c with buffer := c.buffer ++ [v] }, .buffered)

/-- `close()`: idempotent; marks the channel terminal and resolves every
currently awaiting consumer with end-of-stream.  The second component is the
number of waiters woken with the done signal. -/
def AsyncChannel.close (c : AsyncChannel α) : AsyncChannel α × Nat :=
  if c.closed then (c, 0)
  else ({ c with closed := true, waiters := 0 }, c.waiters)

/-- `drain()`: removes and returns all buffered-but-unconsumed values. -/
def AsyncChannel.drain (c : AsyncChannel α) : AsyncChannel α × List α :=
  ({ c with buffer := [] }, c.buffer)

/-- Result of one consumer `next()` call. -/
inductive NextResult (α : Type) where
  | value (v : α)
  | done
  | pending
deriving DecidableEq, Repr

/-- The iterator's `next()`: a buffered value is returned immediately; on a
closed empty channel the end signal is returned; otherwise the consumer is
registered as a waiter (the JS promise stays unresolved). -/
def AsyncChannel.next (c : AsyncChannel α) : AsyncChannel α × NextResult α :=
  match c.buffer with
  | v :: rest => ({ c with buffer := rest }, .value v)
  | [] =>
    if c.closed then (c, .done)
    else ({ c with waiters := c.waiters + 1 }, .pending)

/-- A freshly created channel (`createAsyncChannel`). -/
def AsyncChannel.create : AsyncChannel α := ⟨[], 0, false⟩

/-- Push a whole list of values in order. -/
def pushAll (c : AsyncChannel α) (vs : List α) : AsyncChannel α :=
  vs.foldl (fun c v => (c.push v).1) c

/-- Consume up to `k` values by repeated `next()` calls, collecting the
values observed (stopping at end-of-stream or a pending wait). -/
def consumeN (c : AsyncChannel α) : Nat → AsyncChannel α × List α
  | 0 => (c, [])
  | k + 1 =>
    match c.next with
    | (c₁, .value v) =>
      let r := consumeN c₁ k
      (r.1, v :: r.2)
    | (c₁, .done) => (c₁, [])
    | (c₁, .pending) => (c₁, [])

lemma pushAll_no_waiters (vs : List α) :
    ∀ bs, pushAll ⟨bs, 0, false⟩ vs = ⟨bs ++ vs, 0, false⟩ := by
  induction vs with
  | nil => intro bs; simp [pushAll]
  | cons v vs ih =>
    intro bs
    simp only [pushAll, List.foldl_cons]
    have hstep : (AsyncChannel.push ⟨bs, 0, false⟩ v).1
        = (⟨bs ++ [v], 0, false⟩ : AsyncChannel α) := by
      simp [AsyncChannel.push]
    rw [hstep]
    simpa [pushAll] using ih (bs ++ [v])

lemma consumeN_closed (vs : List α) :
    ∀ k, k ≤ vs.length →
      consumeN (⟨vs, 0, true⟩ : AsyncChannel α) k
        = (⟨vs.drop k, 0, true⟩, vs.take k) := by
  induction vs with
  | nil =>
    intro k hk
    have : k = 0 := Nat.le_zero.mp hk
    subst this
    simp [consumeN]
  | cons v vs ih =>
    intro k hk
    cases k with
    | zero => simp [consumeN]
    | succ k =>
      have hnext : (⟨v :: vs, 0, true⟩ : AsyncChannel α).next
          = (⟨vs, 0, true⟩, .value v) := by
        simp [AsyncChannel.next]
      simp only [consumeN]
      rw [hnext]
      have := ih k (Nat.le_of_succ_le_succ hk)
      simp [this]

/-- C2: for every finite sequence of pushes to a fresh Handoff Channel
followed by `close()`, a consumer observes each pushed value at most once, in
push order, and then the end-of-stream signal; `drain()` after `close()`
returns exactly the buffered values the consumer had not yet consumed, in
push order; `close()` is idempotent and wakes every currently awaiting
consumer with end-of-stream. -/
theorem channel_push_close_consume_spec (vs : List String) (k : Nat)
    (hk : k ≤ vs.length) :
    -- pushing with no consumer awaiting buffers everything in push order
    pushAll AsyncChannel.create vs = ⟨vs, 0, false⟩ ∧
    -- after close, the first k next() calls observe take k vs, in order
    (consumeN ((pushAll AsyncChannel.create vs).close).1 k).2 = vs.take k ∧
    -- drain after consuming k returns exactly the not-yet-consumed suffix
    ((consumeN ((pushAll AsyncChannel.create vs).close).1 k).1.drain).2
      = vs.drop k ∧
    -- once all values are consumed the next call signals end-of-stream
    ((consumeN ((pushAll AsyncChannel.create vs).close).1 vs.length).1.next).2
      = NextResult.done ∧
    -- close is idempotent
    (∀ c : AsyncChannel String, ((c.close).1.close) = ((c.close).1, 0)) ∧
    -- close wakes every currently awaiting consumer with end-of-stream
    (∀ c : AsyncChannel String, c.closed = false →
      (c.close).2 = c.waiters ∧ (c.close).1.waiters = 0 ∧
      (c.close).1.closed = true) := by
  have hpush : pushAll AsyncChannel.create vs
      = (⟨vs, 0, false⟩ : AsyncChannel String) := by
    simpa using pushAll_no_waiters vs []
  have hclose : ((pushAll AsyncChannel.create vs).close).1
      = (⟨vs, 0, true⟩ : AsyncChannel String) := by
    rw [hpush]; simp [AsyncChannel.close]
  refine ⟨hpush, ?_, ?_, ?_, ?_, ?_⟩
  · rw [hclose, consumeN_closed vs k hk]
  · rw [hclose, consumeN_closed vs k hk]
    simp [AsyncChannel.drain]
  · rw [hclose, consumeN_closed vs vs.length le_rfl]
    simp [AsyncChannel.next]
  · intro c
    unfold AsyncChannel.close
    split
    · simp_all [AsyncChannel.close]
    · simp [AsyncChannel.close]
  · intro c hc
    simp [AsyncChannel.close, hc]

/-- Witness for C2 at a concrete channel history: push "a", push "b",
close, consume one value. -/
theorem channel_push_close_consume_spec_witness :
    (consumeN ((pushAll AsyncChannel.create ["a", "b"]).close).1 1).2
      = ["a"] :=
  (channel_push_close_consume_spec ["a", "b"] 1 (by decide)).2.1

/-- C9: a `push` on a closed Handoff Channel is a silent no-op: the value is
neither buffered nor delivered, no waiter is woken, and the channel state
(buffer, closed flag, and hence any later `drain()`) is unchanged. -/
theorem channel_push_after_close_noop (c : AsyncChannel String) (v : String)
    (hc : c.closed = true) :
    (c.push v) = (c, .dropped) ∧
    ((c.push v).1.drain).2 = (c.drain).2 ∧
    (c.push v).1.waiters = c.waiters := by
  refine ⟨?_, ?_, ?_⟩ <;> simp [AsyncChannel.push, hc]

/-- Witness for C9 at a concrete closed channel holding one buffered value. -/
theorem channel_push_after_close_noop_witness :
    ((⟨["x"], 2, true⟩ : AsyncChannel String).push "y")
      = ((⟨["x"], 2, true⟩ : AsyncChannel String), .dropped) :=
  (channel_push_after_close_noop ⟨["x"], 2, true⟩ "y" rfl).1

/-! ## Message splitter (`src/messageSplitter.ts`)

`splitMessageSimple` / `findSplitPoint` operate on JS strings by index; we
model the text as `List Char`.  `MAX_LENGTH = 1950`.  JS `lastIndexOf`
returns `-1` when absent, and the threshold test `idx > text.length * 0.5`
compares an integer index against an exactly-representable float; for
integers it is equivalent to `2 * idx > text.length`. -/

def maxLength : Nat := 1950

/-- `text.lastIndexOf(c)` accumulator: `i` is the index of the list head in
the original text, `best` the last hit so far (`-1` when none). -/
def lastIndexOfCharAux (c : Char) : List Char → Int → Int → Int
  | [], _, best => best
  | x :: xs, i, best =>
    lastIndexOfCharAux c xs (i + 1) (if x = c then i else best)

/-- JS `text.lastIndexOf(c)` for a one-character needle. -/
def lastIndexOfChar (s : List Char) (c : Char) : Int :=
  lastIndexOfCharAux c s 0 (-1)

/-- Accumulator for a two-character needle. -/
def lastIndexOfPairAux (a b : Char) : List Char → Int → Int → Int
  | [], _, best => best
  | [_], _, best => best
  | x :: y :: xs, i, best =>
    lastIndexOfPairAux a b (y :: xs) (i + 1)
      (if x = a ∧ y = b then i else best)

/-- JS `text.lastIndexOf(ab)` for a two-character needle (used for
`"\n\n"`). -/
def lastIndexOfPair (s : List Char) (a b : Char) : Int :=
  lastIndexOfPairAux a b s 0 (-1)

/-- `findSplitPoint`: prefer the last double newline, then the last newline,
then the last space — each only when it lies in the second half of the
slice — else hard-split at the end. -/
def findSplitPoint (s : List Char) : Nat :=
  if 2 * lastIndexOfPair s '\n' '\n' > (s.length : Int) then
    (lastIndexOfPair s '\n' '\n' + 2).toNat
  else if 2 * lastIndexOfChar s '\n' > (s.length : Int) then
    (lastIndexOfChar s '\n' + 1).toNat
  else if 2 * lastIndexOfChar s ' ' > (s.length : Int) then
    (lastIndexOfChar s ' ' + 1).toNat
  else s.length

lemma lastIndexOfCharAux_le (c : Char) (s : List Char) :
    ∀ (i best : Int), best + 1 ≤ i + s.length →
      lastIndexOfCharAux c s i best + 1 ≤ i + s.length := by
  induction s with
  | nil => intro i best h; simpa [lastIndexOfCharAux] using h
  | cons x xs ih =>
    intro i best h
    simp only [List.length_cons] at h ⊢
    push_cast at h ⊢
    simp only [lastIndexOfCharAux]
    have hb : (if x = c then i else best) + 1 ≤ (i + 1) + (xs.length : Int) := by
      split <;> omega
    have hrec := ih (i + 1) (if x = c then i else best) hb
    omega

lemma lastIndexOfChar_le (s : List Char) (c : Char) :
    lastIndexOfChar s c + 1 ≤ s.length := by
  have := lastIndexOfCharAux_le c s 0 (-1) (by positivity)
  simpa [lastIndexOfChar] using this

lemma lastIndexOfPairAux_le (a b : Char) (s : List Char) :
    ∀ (i best : Int), best + 2 ≤ i + s.length ∨ best = -1 →
      lastIndexOfPairAux a b s i best + 2 ≤ i + s.length
        ∨ lastIndexOfPairAux a b s i best = -1 := by
  induction s with
  | nil => intro i best h; simpa [lastIndexOfPairAux] using h
  | cons x xs ih =>
    intro i best h
    match xs, ih with
    | [], _ =>
      simp only [lastIndexOfPairAux]
      rcases h with h | h
      · left; simpa using h
      · right; exact h
    | y :: ys, ih =>
      simp only [lastIndexOfPairAux]
      have hpre : (if x = a ∧ y = b then i else best) + 2
          ≤ (i + 1) + ((y :: ys).length : Int)
            ∨ (if x = a ∧ y = b then i else best) = -1 := by
        simp only [List.length_cons]
        push_cast
        split
        · left; omega
        · rcases h with h | h
          · left
            simp only [List.length_cons] at h
            push_cast at h
            omega
          · right; exact h
      have hrec := ih (i + 1) (if x = a ∧ y = b then i else best) hpre
      simp only [List.length_cons] at hrec ⊢
      push_cast at hrec ⊢
      omega

lemma lastIndexOfPair_le (s : List Char) (a b : Char) :
    lastIndexOfPair s a b + 2 ≤ s.length ∨ lastIndexOfPair s a b = -1 := by
  have := lastIndexOfPairAux_le a b s 0 (-1) (Or.inr rfl)
  simpa [lastIndexOfPair] using this

lemma findSplitPoint_pos (s : List Char) (h : 0 < s.length) :
    0 < findSplitPoint s := by
  unfold findSplitPoint
  have hlen : (0 : Int) ≤ (s.length : Int) := by positivity
  split
  · next hdn => omega
  · split
    · next hnl => omega
    · split
      · next hsp => omega
      · exact h

lemma findSplitPoint_le (s : List Char) : findSplitPoint s ≤ s.length := by
  unfold findSplitPoint
  split
  · next hdn =>
    rcases lastIndexOfPair_le s '\n' '\n' with h | h
    · omega
    · rw [h] at hdn; omega
  · split
    · next hnl =>
      have := lastIndexOfChar_le s '\n'
      omega
    · split
      · next hsp =>
        have := lastIndexOfChar_le s ' '
        omega
      · exact le_rfl

/-- `splitMessageSimple`'s while loop: take a `MAX_LENGTH` slice, find its
split point, emit the prefix, recurse on the rest; a remainder that already
fits becomes the last chunk. -/
def splitLoop (remaining : List Char) : List (List Char) :=
  if h : remaining.length ≤ maxLength then [remaining]
  else
    let slice := remaining.take maxLength
    let splitAt := findSplitPoint slice
    remaining.take splitAt :: splitLoop (remaining.drop splitAt)
termination_by remaining.length
decreasing_by
  simp only [List.length_drop]
  have hmax : 0 < maxLength := by decide
  have hpos : 0 < findSplitPoint (remaining.take maxLength) := by
    apply findSplitPoint_pos
    simp only [List.length_take]
    omega
  omega

/-- `splitMessageSimple(text)`: the identity singleton for short text, the
loop otherwise. -/
def splitMessageSimple (text : List Char) : List (List Char) :=
  if text.length ≤ maxLength then [text] else splitLoop text

lemma splitLoop_flatten (r : List Char) : (splitLoop r).flatten = r := by
  induction r using splitLoop.induct with
  | case1 r hle => rw [splitLoop]; simp [hle]
  | case2 r hle slice splitAt ih =>
    rw [splitLoop]
    simp only [hle, dite_false, List.flatten_cons]
    rw [ih]
    exact List.take_append_drop _ r

lemma splitLoop_ne_nil (r : List Char) : splitLoop r ≠ [] := by
  rw [splitLoop]
  split <;> simp

lemma splitLoop_chunk_le (r : List Char) :
    ∀ c ∈ splitLoop r, c.length ≤ maxLength := by
  induction r using splitLoop.induct with
  | case1 r hle =>
    rw [splitLoop]
    simp only [hle, dite_true, List.mem_singleton]
    rintro c rfl
    exact hle
  | case2 r hle slice splitAt ih =>
    rw [splitLoop]
    simp only [hle, dite_false, List.mem_cons]
    rintro c (rfl | hc)
    · have h₁ : findSplitPoint (r.take maxLength) ≤ (r.take maxLength).length :=
        findSplitPoint_le _
      simp only [List.length_take] at h₁
      simp only [List.length_take]
      omega
    · exact ih c hc

/-- C10: `splitMessageSimple` always returns a non-empty list of chunks
whose concatenation is exactly the input, every chunk fits the 1950-char
limit, and an input that already fits is returned as a singleton. -/
theorem splitMessageSimple_spec (s : List Char) :
    splitMessageSimple s ≠ [] ∧
    (splitMessageSimple s).flatten = s ∧
    (∀ c ∈ splitMessageSimple s, c.length ≤ 1950) ∧
    (s.length ≤ 1950 → splitMessageSimple s = [s]) := by
  unfold splitMessageSimple
  have hmax : maxLength = 1950 := rfl
  split
  · next hle =>
    refine ⟨by simp, by simp, ?_, fun _ => rfl⟩
    simp only [List.mem_singleton]
    rintro c rfl
    rw [← hmax]; exact hle
  · next hgt =>
    refine ⟨splitLoop_ne_nil s, splitLoop_flatten s, ?_, ?_⟩
    · intro c hc
      rw [← hmax]; exact splitLoop_chunk_le s c hc
    · intro hle
      rw [hmax] at hgt
      omega

/-- Witness for C10 (no hypotheses in the statement proper, but the last
conjunct is an implication): instantiated at a short concrete input. -/
theorem splitMessageSimple_spec_witness :
    splitMessageSimple ['h', 'i'] = [['h', 'i']] :=
  (splitMessageSimple_spec ['h', 'i']).2.2.2 (by decide)

/-! ## Flush path (`doEdit` in `src/agentRunner.ts`)

`doEdit` takes the accumulated streamed text (after the out-of-scope
markdown-table formatting pass), splits it with `splitMessageSimple`, and
edits the existing live message with the first chunk, or sends a new message
when none exists for this turn.  To talk about formatting fences we count
lines beginning with three backquotes, as the sibling `splitMessage`
function's `/^```/gm` bookkeeping does. -/

/-- The backquote character. -/
def backquote : Char := Char.ofNat 96

/-- A code-fence marker: three backquotes at the start of a line. -/
def fenceMark : List Char := [backquote, backquote, backquote]

/-- Split text into lines at newline characters. -/
def splitLines : List Char → List (List Char)
  | [] => [[]]
  | c :: rest =>
    if c = '\n' then [] :: splitLines rest
    else
      match splitLines rest with
      | l :: ls => (c :: l) :: ls
      | [] => [[c]]

/-- Number of lines that begin with a code-fence marker. -/
def fenceLineCount (s : List Char) : Nat :=
  (splitLines s).countP (fun l => fenceMark.isPrefixOf l)

/-- A text ends inside an open code fence when it contains an odd number of
fence lines. -/
def endsInsideOpenFence (s : List Char) : Bool :=
  fenceLineCount s % 2 == 1

/-- The effect of one `doEdit` call on the outbound UI. -/
inductive EditAction where
  | noop
  | sendNew (content : List Char)
  | editExisting (content : List Char)
deriving DecidableEq, Repr

/-- `doEdit`: no-op without accumulated text; otherwise split and either
edit the existing live message with the first chunk or send a new one. -/
def doEditAction (hasCurrentMessage : Bool) (accumulatedText : List Char) :
    EditAction :=
  if accumulatedText = [] then .noop
  else
    let chunks := splitMessageSimple accumulatedText
    if hasCurrentMessage then .editExisting (chunks.headD [])
    else .sendNew (chunks.headD [])

/-- An opening fence line including its newline. -/
def fenceOpen : List Char := fenceMark ++ ['\n']

/-- A well-fenced text (an opening and a closing fence line) that is longer
than the outbound limit, all on one unbroken line of `a`s in between. -/
def badFenceText : List Char :=
  fenceOpen ++ (List.replicate 1960 'a' ++ '\n' :: fenceMark)

/-- The `MAX_LENGTH` slice of `badFenceText` that `findSplitPoint` sees. -/
def badSliceText : List Char := fenceOpen ++ List.replicate 1946 'a'

lemma lastIndexOfCharAux_append (c : Char) (xs ys : List Char) :
    ∀ (i best : Int),
      lastIndexOfCharAux c (xs ++ ys) i best
        = lastIndexOfCharAux c ys (i + xs.length) (lastIndexOfCharAux c xs i best) := by
  induction xs with
  | nil => intro i best; simp [lastIndexOfCharAux]
  | cons x xs ih =>
    intro i best
    simp only [List.cons_append, lastIndexOfCharAux, List.length_cons,
      List.append_eq]
    rw [ih (i + 1)]
    congr 1
    push_cast
    ring

lemma lastIndexOfCharAux_replicate (c a : Char) (h : a ≠ c) :
    ∀ (n : Nat) (i best : Int),
      lastIndexOfCharAux c (List.replicate n a) i best = best := by
  intro n
  induction n with
  | zero => intro i best; simp [lastIndexOfCharAux]
  | succ n ih =>
    intro i best
    simp only [List.replicate_succ, lastIndexOfCharAux, if_neg h]
    exact ih (i + 1) best

lemma lastIndexOfPairAux_chain (a b : Char) :
    ∀ (s : List Char) (i best : Int),
      List.Chain' (fun x y => ¬(x = a ∧ y = b)) s →
      lastIndexOfPairAux a b s i best = best := by
  intro s
  induction s with
  | nil => intro i best _; rfl
  | cons x xs ih =>
    intro i best hchain
    cases xs with
    | nil => rfl
    | cons y ys =>
      have hhead : ¬(x = a ∧ y = b) := by
        exact (List.chain'_cons.mp hchain).1
      have htail : List.Chain' (fun x y => ¬(x = a ∧ y = b)) (y :: ys) :=
        (List.chain'_cons.mp hchain).2
      simp only [lastIndexOfPairAux, if_neg hhead]
      exact ih (i + 1) best htail

lemma badSliceText_take : badFenceText.take 1950 = badSliceText := by
  have h₄ : fenceOpen.length = 4 := by decide
  rw [badFenceText, List.take_append_eq_append_take,
    List.take_of_length_le (by rw [h₄]; omega), h₄,
    List.take_append_eq_append_take, List.take_replicate,
    List.length_replicate]
  norm_num [badSliceText]

lemma badSliceText_length : badSliceText.length = 1950 := by
  rw [badSliceText, List.length_append, List.length_replicate]
  decide

lemma badSliceText_cons :
    badSliceText = backquote :: backquote :: backquote :: '\n' ::
      'a' :: List.replicate 1945 'a' := by
  rw [badSliceText, fenceOpen, fenceMark,
    show (1946 : Nat) = 1945 + 1 from rfl, List.replicate_succ]
  rfl

lemma badSliceText_no_doubleNewline :
    lastIndexOfPair badSliceText '\n' '\n' = -1 := by
  rw [lastIndexOfPair]
  apply lastIndexOfPairAux_chain
  have hrep : List.Chain' (fun x y : Char => ¬(x = '\n' ∧ y = '\n'))
      (List.replicate 1946 'a') :=
    List.chain'_replicate_of_rel _ (by decide)
  rw [show (1946 : Nat) = 1945 + 1 from rfl, List.replicate_succ] at hrep
  rw [badSliceText_cons]
  refine List.chain'_cons.mpr ⟨by decide, ?_⟩
  refine List.chain'_cons.mpr ⟨by decide, ?_⟩
  refine List.chain'_cons.mpr ⟨by decide, ?_⟩
  refine List.chain'_cons.mpr ⟨by decide, ?_⟩
  exact hrep

lemma badSliceText_newline :
    lastIndexOfChar badSliceText '\n' = 3 := by
  rw [badSliceText, lastIndexOfChar, lastIndexOfCharAux_append]
  have h₁ : lastIndexOfCharAux '\n' fenceOpen 0 (-1) = 3 := by decide
  have h₂ : fenceOpen.length = 4 := by decide
  rw [h₁, h₂, lastIndexOfCharAux_replicate _ _ (by decide)]

lemma badSliceText_no_space :
    lastIndexOfChar badSliceText ' ' = -1 := by
  rw [badSliceText, lastIndexOfChar, lastIndexOfCharAux_append]
  have h₁ : lastIndexOfCharAux ' ' fenceOpen 0 (-1) = -1 := by decide
  rw [h₁, lastIndexOfCharAux_replicate _ _ (by decide)]

lemma badSliceText_findSplitPoint : findSplitPoint badSliceText = 1950 := by
  rw [findSplitPoint, badSliceText_no_doubleNewline, badSliceText_newline,
    badSliceText_no_space, badSliceText_length]
  norm_num

lemma splitLines_no_newline (s : List Char) (h : ∀ c ∈ s, c ≠ '\n') :
    splitLines s = [s] := by
  induction s with
  | nil => rfl
  | cons c rest ih =>
    have hc : c ≠ '\n' := h c (List.mem_cons_self c rest)
    have hrest : splitLines rest = [rest] :=
      ih fun x hx => h x (List.mem_cons_of_mem c hx)
    simp [splitLines, hc, hrest]

lemma splitLines_append_newline (xs ys : List Char)
    (h : ∀ c ∈ xs, c ≠ '\n') :
    splitLines (xs ++ '\n' :: ys) = xs :: splitLines ys := by
  induction xs with
  | nil => simp [splitLines]
  | cons c rest ih =>
    have hc : c ≠ '\n' := h c (List.mem_cons_self c rest)
    have hrest := ih fun x hx => h x (List.mem_cons_of_mem c hx)
    simp [splitLines, hc, hrest]

lemma mem_replicate_ne_newline (n : Nat) :
    ∀ c ∈ List.replicate n 'a', c ≠ '\n' := by
  intro c hc
  rw [List.eq_of_mem_replicate hc]
  decide

lemma fence_not_prefixOf_replicate (n : Nat) :
    fenceMark.isPrefixOf (List.replicate n 'a') = false := by
  cases n with
  | zero => rfl
  | succ m =>
    rw [List.replicate_succ]
    simp only [fenceMark, List.isPrefixOf]
    have : (backquote == 'a') = false := by decide
    simp [this]

lemma fenceLineCount_badSliceText : fenceLineCount badSliceText = 1 := by
  rw [fenceLineCount, badSliceText, fenceOpen, List.append_assoc,
    List.singleton_append,
    splitLines_append_newline _ _ (by decide),
    splitLines_no_newline _ (mem_replicate_ne_newline 1946),
    List.countP_cons, List.countP_cons, List.countP_nil]
  rw [fence_not_prefixOf_replicate 1946]
  decide

lemma fenceLineCount_badFenceText : fenceLineCount badFenceText = 2 := by
  rw [fenceLineCount, badFenceText, fenceOpen, List.append_assoc,
    List.singleton_append,
    splitLines_append_newline _ _ (by decide),
    splitLines_append_newline _ _ (mem_replicate_ne_newline 1960),
    splitLines_no_newline fenceMark (by decide),
    List.countP_cons, List.countP_cons, List.countP_cons, List.countP_nil]
  rw [fence_not_prefixOf_replicate 1960]
  decide

lemma badFenceText_length : badFenceText.length = 1968 := by
  rw [badFenceText, List.length_append, List.length_append,
    List.length_replicate, List.length_cons]
  decide

lemma splitMessageSimple_badFenceText_head :
    (splitMessageSimple badFenceText).headD [] = badSliceText := by
  rw [splitMessageSimple, if_neg (by rw [badFenceText_length]; decide),
    splitLoop, dif_neg (by rw [badFenceText_length]; decide)]
  have hslice : badFenceText.take maxLength = badSliceText := badSliceText_take
  simp only [maxLength] at hslice
  simp only [maxLength, hslice, badSliceText_findSplitPoint]
  rfl

/-- C8 counterexample: the flush path's splitter is fence-oblivious — on a
well-fenced input longer than the outbound limit, the first chunk it
produces contains an odd number of fence lines, i.e. the split boundary
falls in the middle of a code-fence block. -/
theorem flush_split_lands_inside_fence :
    fenceLineCount badFenceText % 2 = 0 ∧
    1950 < badFenceText.length ∧
    endsInsideOpenFence ((splitMessageSimple badFenceText).headD []) = true := by
  refine ⟨?_, ?_, ?_⟩
  · rw [fenceLineCount_badFenceText]
  · rw [badFenceText_length]; decide
  · rw [endsInsideOpenFence, splitMessageSimple_badFenceText_head,
      fenceLineCount_badSliceText]
    decide

/-- C8 (amended): a flush with no unflushed text is a no-op; otherwise the
unflushed text is split into chunks each bounded by the outbound
message-size limit (preferring paragraph, line, or space boundaries in the
latter half of each slice but without tracking code fences), losing no text,
and the first chunk is applied by editing the existing live message, or by
sending a new message when none exists for this turn. -/
theorem flush_chunks_bounded_and_dispatched (hasMsg : Bool)
    (text : List Char) (h : text ≠ []) :
    doEditAction hasMsg [] = .noop ∧
    (∀ c ∈ splitMessageSimple text, c.length ≤ 1950) ∧
    (splitMessageSimple text).flatten = text ∧
    doEditAction true text = .editExisting ((splitMessageSimple text).headD []) ∧
    doEditAction false text = .sendNew ((splitMessageSimple text).headD []) := by
  refine ⟨rfl, (splitMessageSimple_spec text).2.2.1, (splitMessageSimple_spec text).2.1, ?_, ?_⟩
  · rw [doEditAction, if_neg h]
    rfl
  · rw [doEditAction, if_neg h]
    rfl

/-- Witness for the amended C8 at a one-character text. -/
theorem flush_chunks_bounded_and_dispatched_witness :
    doEditAction false ['x'] = .sendNew ['x'] := by
  have := (flush_chunks_bounded_and_dispatched false ['x'] (by decide)).2.2.2.2
  rw [this]
  rfl

/-! ## Plan approval parsing (`parsePlanApproval` in `src/planApprovalParser.ts`)

JS `text.trim().toLowerCase()` is modelled with `String.trim` and a
character-wise lowercase map (the inputs involved are ASCII). -/

/-- JS `String.prototype.trim` (strip leading and trailing whitespace),
written over the character list so that proofs can evaluate it. -/
def jsTrim (s : String) : String :=
  ⟨((s.data.dropWhile Char.isWhitespace).reverse.dropWhile
      Char.isWhitespace).reverse⟩

/-- JS `toLowerCase` (character-wise, sufficient for ASCII). -/
def jsToLower (s : String) : String := ⟨s.data.map Char.toLower⟩

/-- Result of parsing a plan approval reply; optional JS fields are
`Option`s. -/
structure PlanApprovalResult where
  approved : Bool
  feedback : Option String := none
  clearContext : Option Bool := none
deriving DecidableEq, Repr

/-- `parsePlanApproval`: option 1 (approve and clear context), option 2
(approve keeping context), option 3 (reject without feedback), and the
fallback (reject with the trimmed text as feedback). -/
def parsePlanApproval (text : String) : PlanApprovalResult :=
  let trimmed := jsToLower (jsTrim text)
  if trimmed = "1" ∨ trimmed = "clear" ∨ trimmed = "clear context" then
    { approved := true, clearContext := some true }
  else if trimmed = "2" ∨ trimmed = "approve" ∨ trimmed = "approved" ∨
      trimmed = "yes" ∨ trimmed = "y" ∨ trimmed = "lgtm" ∨
      trimmed = "looks good" ∨ trimmed = "ok" ∨ trimmed = "go" ∨
      trimmed = "go ahead" ∨ trimmed = "proceed" then
    { approved := true }
  else if trimmed = "3" ∨ trimmed = "reject" ∨ trimmed = "rejected" ∨
      trimmed = "no" ∨ trimmed = "n" ∨ trimmed = "revise" then
    { approved := false }
  else
    { approved := false, feedback := some (jsTrim text) }

/-- The spec's word-for-word description of the reply protocol, phrased via
membership in the three listed token sets. -/
def planApprovalPerSpec (text : String) : PlanApprovalResult :=
  let t := jsToLower (jsTrim text)
  if t ∈ ["1", "clear", "clear context"] then
    { approved := true, clearContext := some true }
  else if t ∈ ["2", "approve", "approved", "yes", "y", "lgtm", "looks good",
      "ok", "go", "go ahead", "proceed"] then
    { approved := true }
  else if t ∈ ["3", "reject", "rejected", "no", "n", "revise"] then
    { approved := false }
  else
    { approved := false, feedback := some (jsTrim text) }

/-- C4: `parsePlanApproval` maps user replies to approval outcomes exactly
as the spec's token table prescribes, with any unlisted input rejected with
the trimmed text as feedback. -/
theorem parsePlanApproval_matches_spec (s : String) :
    parsePlanApproval s = planApprovalPerSpec s := by
  unfold parsePlanApproval planApprovalPerSpec
  simp only [List.mem_cons, List.mem_singleton, List.not_mem_nil, or_false]

/-- Witness evaluating C4 on concrete replies, one from each class. -/
theorem parsePlanApproval_matches_spec_witness :
    parsePlanApproval " Clear Context "
      = { approved := true, clearContext := some true } ∧
    parsePlanApproval "ok" = { approved := true } ∧
    parsePlanApproval "no" = { approved := false } ∧
    parsePlanApproval "please add tests"
      = { approved := false, feedback := some "please add tests" } := by
  refine ⟨?_, ?_, ?_, ?_⟩ <;>
    rw [parsePlanApproval_matches_spec] <;> decide

/-! ## Interactive question bridge (`src/messageHandler.ts`)

`handleInteractiveQuestion` and `buildAnswersFromSelections`.  JS `Map`s
(insertion-ordered, delete-then-set reinserts at the end) are association
lists; JS `Set`s (insertion-ordered) are duplicate-free lists. -/

structure QOption where
  label : String
  description : String
deriving DecidableEq, Repr

structure Question where
  question : String
  header : String
  options : List QOption
  multiSelect : Bool
deriving DecidableEq, Repr

/-- One entry of the globally numbered flat option list. -/
structure FlatOption where
  globalIndex : Nat
  questionIndex : Nat
  label : String
  isOther : Bool
deriving DecidableEq, Repr

/-- The pending interactive prompt state stored on the Session. -/
structure PendingQuestion where
  questions : List Question
  selections : List (Nat × List Nat)
  otherText : List (Nat × String)
  awaitingOtherForQuestion : Option Nat
  flatOptions : List FlatOption
deriving DecidableEq, Repr

/-- JS `Map.get`. -/
def mapGet (m : List (Nat × α)) (k : Nat) : Option α :=
  (m.find? (fun p => p.1 == k)).map (fun p => p.2)

/-- JS `Map.set`: update in place if present, else append. -/
def mapSet (m : List (Nat × α)) (k : Nat) (v : α) : List (Nat × α) :=
  if (m.find? (fun p => p.1 == k)).isSome then
    m.map (fun p => if p.1 == k then (k, v) else p)
  else m ++ [(k, v)]

/-- JS `Map.delete`. -/
def mapDel (m : List (Nat × α)) (k : Nat) : List (Nat × α) :=
  m.filter (fun p => p.1 != k)

/-- JS `Set.add` (no-op when present, else append). -/
def setAdd (s : List Nat) (n : Nat) : List Nat :=
  if s.contains n then s else s ++ [n]

/-- JS `Set.delete`. -/
def setDel (s : List Nat) (n : Nat) : List Nat :=
  s.filter (fun x => x != n)

/-- Placeholder question used for the (never taken in well-formed states)
out-of-range lookup `pq.questions[qi]!`. -/
def emptyQuestion : Question := ⟨"", "", [], false⟩

/-- The "other" text contributed for a question: JS pushes
`otherText.get(qi)` only when it is truthy (present and non-empty). -/
def otherContribution (pq : PendingQuestion) (qi : Nat) : Option String :=
  match mapGet pq.otherText qi with
  | some t => if t ≠ "" then some t else none
  | none => none

/-- The `labels` array `buildAnswersFromSelections` accumulates for one
question: for each selected global index (in selection insertion order),
the matching flat option's label, or the stored "other" text for the
question when the option is an "other" option. -/
def answerLabels (pq : PendingQuestion) (qi : Nat) : List String :=
  ((mapGet pq.selections qi).getD []).filterMap (fun g =>
    match pq.flatOptions.find? (fun o => o.globalIndex == g) with
    | none => none
    | some o =>
      if o.isOther then otherContribution pq qi
      else some o.label)

/-- Default answer when nothing contributed: the first option's label. -/
def defaultAnswer (q : Question) : String :=
  ((q.options.head?).map (fun o => o.label)).getD ""

/-- The answer string recorded for question `qi`. -/
def answerValue (pq : PendingQuestion) (qi : Nat) : String :=
  let labels := answerLabels pq qi
  if labels = [] then defaultAnswer (pq.questions.getD qi emptyQuestion)
  else String.intercalate ", " labels

/-- `buildAnswersFromSelections`: one `(header, answer)` entry per question,
in question order.  (JS assigns into a Record keyed by header; with distinct
headers the two representations agree.) -/
def buildAnswersFromSelections (pq : PendingQuestion) :
    List (String × String) :=
  (List.range pq.questions.length).map (fun qi =>
    ((pq.questions.getD qi emptyQuestion).header, answerValue pq qi))

/-- The submit keyword test, JS regex `/^(submit|done|confirm)$/i` applied
to the trimmed reply. -/
def isSubmitWord (text : String) : Bool :=
  jsToLower text ∈ ["submit", "done", "confirm"]

/-- JS `parseInt` on a non-empty run of decimal digits. -/
def charsToNat (ds : List Char) : Nat :=
  ds.foldl (fun acc c => acc * 10 + (c.toNat - '0'.toNat)) 0

/-- The `"<number> <free text>"` shorthand, JS regex `/^(\d+)\s+(.+)$/s` on
the (already trimmed) reply: a non-empty digit run, a non-empty whitespace
run, and a non-empty remainder (the remainder is trimmed like JS's
`match[2].trim()`; pre-trimmed input makes the regex's backtracking into
trailing whitespace unreachable). -/
def parseOtherShorthand (text : String) : Option (Nat × String) :=
  let cs := text.data
  let ds := cs.takeWhile Char.isDigit
  if ds = [] then none
  else
    let rest₁ := cs.drop ds.length
    let ws := rest₁.takeWhile Char.isWhitespace
    if ws = [] then none
    else
      let rest := rest₁.drop ws.length
      if rest = [] then none
      else some (charsToNat ds, jsTrim ⟨rest⟩)

/-- The numeric-reply test, JS regex `/^[\d,\s]+$/`. -/
def isNumericReply (text : String) : Bool :=
  text.data ≠ [] &&
    text.data.all (fun c => c.isDigit || c == ',' || c.isWhitespace)

/-- Maximal digit runs of the reply — what JS's
`split(/[,\s]+/).map(parseInt).filter(not NaN)` yields on a reply that
passed the numeric test. -/
def digitRuns : List Char → List (List Char)
  | [] => []
  | c :: rest =>
    if c.isDigit then
      (c :: rest.takeWhile Char.isDigit) :: digitRuns (rest.dropWhile Char.isDigit)
    else digitRuns rest
termination_by cs => cs.length
decreasing_by
  · have := List.Sublist.length_le (List.dropWhile_sublist (l := rest) Char.isDigit)
    simp only [List.length_cons]
    omega
  · simp

/-- The parsed toggle numbers of a numeric reply. -/
def parseNums (text : String) : List Nat :=
  (digitRuns text.data).map charsToNat

/-- One toggle step of the numeric branch of `handleInteractiveQuestion`. -/
def toggleOne (pq : PendingQuestion) (num : Nat) : PendingQuestion :=
  match pq.flatOptions.find? (fun o => o.globalIndex == num) with
  | none => pq
  | some opt =>
    let qi := opt.questionIndex
    let selected := (mapGet pq.selections qi).getD []
    let q := pq.questions.getD qi emptyQuestion
    if opt.isOther then
      if selected.contains num then
        { pq with selections := mapSet pq.selections qi (setDel selected num),
                  otherText := mapDel pq.otherText qi }
      else
        let base := if q.multiSelect then selected else []
        { pq with selections := mapSet pq.selections qi (setAdd base num),
                  awaitingOtherForQuestion := some qi }
    else
      if selected.contains num then
        { pq with selections := mapSet pq.selections qi (setDel selected num) }
      else if q.multiSelect then
        { pq with selections := mapSet pq.selections qi (setAdd selected num) }
      else
        { pq with selections := mapSet pq.selections qi (setAdd [] num),
                  otherText := mapDel pq.otherText qi }

/-- All toggles of one numeric reply, in order. -/
def applyToggles (pq : PendingQuestion) (nums : List Nat) : PendingQuestion :=
  nums.foldl toggleOne pq

/-- Observable outcome of `handleInteractiveQuestion` on one reply. -/
inductive HIQResult where
  | updated (pq : PendingQuestion)
  | resolved (answers : List (String × String))
  | hint
deriving DecidableEq, Repr

/-- `handleInteractiveQuestion`: awaiting-freeform state captures the reply
verbatim; `submit`/`done`/`confirm` resolves the prompt; the
`"<number> <text>"` shorthand toggles an "other" option and stores its text
in one step (falling through otherwise); numeric replies toggle options;
anything else produces a transient hint. -/
def handleInteractiveQuestion (pq : PendingQuestion) (content : String) :
    HIQResult :=
  let text := jsTrim content
  match pq.awaitingOtherForQuestion with
  | some qi =>
    .updated { pq with otherText := mapSet pq.otherText qi text,
                       awaitingOtherForQuestion := none }
  | none =>
    if isSubmitWord text then
      .resolved (buildAnswersFromSelections pq)
    else
      let shApplied : Option PendingQuestion :=
        match parseOtherShorthand text with
        | none => none
        | some (num, freeform) =>
          match pq.flatOptions.find? (fun o => o.globalIndex == num) with
          | none => none
          | some opt =>
            if opt.isOther then
              let qi := opt.questionIndex
              let q := pq.questions.getD qi emptyQuestion
              let selected := (mapGet pq.selections qi).getD []
              let base := if q.multiSelect then selected else []
              let ot := if q.multiSelect then pq.otherText
                        else mapDel pq.otherText qi
              some { pq with
                selections := mapSet pq.selections qi (setAdd base num),
                otherText := mapSet ot qi freeform }
            else none
      match shApplied with
      | some pq₁ => .updated pq₁
      | none =>
        if isNumericReply text then
          .updated (applyToggles pq (parseNums text))
        else .hint

/-- Whether a global index refers to an "other" flat option. -/
def isOtherIdx (pq : PendingQuestion) (g : Nat) : Bool :=
  match pq.flatOptions.find? (fun o => o.globalIndex == g) with
  | some o => o.isOther
  | none => false

/-- The labels of all toggled non-other options of question `qi` (the
claim's wording), in selection order. -/
def toggledNonOtherLabels (pq : PendingQuestion) (qi : Nat) : List String :=
  ((mapGet pq.selections qi).getD []).filterMap (fun g =>
    match pq.flatOptions.find? (fun o => o.globalIndex == g) with
    | none => none
    | some o => if o.isOther then none else some o.label)

/-- The stored "other" text contributed by toggled other options of
question `qi` (the claim's wording). -/
def toggledOtherTexts (pq : PendingQuestion) (qi : Nat) : List String :=
  ((mapGet pq.selections qi).getD []).filterMap (fun g =>
    match pq.flatOptions.find? (fun o => o.globalIndex == g) with
    | none => none
    | some o => if o.isOther then otherContribution pq qi else none)

lemma filterMap_gate (l : List α) (f : α → Option β) (p : α → Bool) :
    l.filterMap (fun a => if p a then f a else none)
      = (l.filter p).filterMap f := by
  induction l with
  | nil => rfl
  | cons a l ih =>
    by_cases hp : p a <;>
      simp [List.filterMap_cons, List.filter_cons, hp, ih]

lemma filterMap_split_perm (l : List α) (f : α → Option β) (p : α → Bool) :
    (l.filterMap f).Perm
      ((l.filter p).filterMap f
        ++ (l.filter (fun a => !(p a))).filterMap f) := by
  have h := (List.filter_append_perm p l).filterMap f
  rw [List.filterMap_append] at h
  exact h.symm

lemma answerLabels_perm (pq : PendingQuestion) (qi : Nat) :
    (answerLabels pq qi).Perm
      (toggledNonOtherLabels pq qi ++ toggledOtherTexts pq qi) := by
  classical
  set sel := (mapGet pq.selections qi).getD [] with hsel
  set f : Nat → Option String := fun g =>
    match pq.flatOptions.find? (fun o => o.globalIndex == g) with
    | none => none
    | some o =>
      if o.isOther then otherContribution pq qi
      else some o.label with hf
  have hN : toggledNonOtherLabels pq qi
      = sel.filterMap (fun g => if !(isOtherIdx pq g) then f g else none) := by
    rw [toggledNonOtherLabels]
    congr 1
    funext g
    rw [hf]
    unfold isOtherIdx
    cases hfind : pq.flatOptions.find? (fun o => o.globalIndex == g) with
    | none => simp [hfind]
    | some o =>
      by_cases ho : o.isOther <;> simp [hfind, ho]
  have hO : toggledOtherTexts pq qi
      = sel.filterMap (fun g => if isOtherIdx pq g then f g else none) := by
    rw [toggledOtherTexts]
    congr 1
    funext g
    rw [hf]
    unfold isOtherIdx
    cases hfind : pq.flatOptions.find? (fun o => o.globalIndex == g) with
    | none => simp [hfind]
    | some o =>
      by_cases ho : o.isOther <;> simp [hfind, ho]
  have hL : answerLabels pq qi = sel.filterMap f := rfl
  rw [hL, hN, hO, filterMap_gate, filterMap_gate]
  have hdn : (fun g => !(!(isOtherIdx pq g))) = fun g => isOtherIdx pq g := by
    funext g
    exact Bool.not_not _
  have := filterMap_split_perm sel f (fun g => !(isOtherIdx pq g))
  rwa [hdn] at this

/-- C5: when the user submits a pending interactive prompt (a reply
matching submit/done/confirm case-insensitively, with no question currently
awaiting freeform text), the resolved answer map has one entry per question
keyed by its header; each value is the comma-join of the labels of all
toggled non-other options together with any stored "other" text for that
question; a question with nothing toggled (so nothing contributed) defaults
to its first option's label. -/
theorem interactive_submit_answers (pq : PendingQuestion) (content : String)
    (hAwait : pq.awaitingOtherForQuestion = none)
    (hSubmit : isSubmitWord (jsTrim content) = true) :
    handleInteractiveQuestion pq content
      = .resolved (buildAnswersFromSelections pq) ∧
    (buildAnswersFromSelections pq).length = pq.questions.length ∧
    ∀ qi, qi < pq.questions.length →
      ∃ labels : List String,
        (buildAnswersFromSelections pq)[qi]?
          = some ((pq.questions.getD qi emptyQuestion).header,
              if labels = [] then
                defaultAnswer (pq.questions.getD qi emptyQuestion)
              else String.intercalate ", " labels) ∧
        labels.Perm (toggledNonOtherLabels pq qi ++ toggledOtherTexts pq qi) ∧
        ((mapGet pq.selections qi).getD [] = [] → labels = []) := by
  refine ⟨?_, ?_, ?_⟩
  · unfold handleInteractiveQuestion
    rw [hAwait]
    simp [hSubmit]
  · simp [buildAnswersFromSelections]
  · intro qi hqi
    refine ⟨answerLabels pq qi, ?_, answerLabels_perm pq qi, ?_⟩
    · simp only [buildAnswersFromSelections, List.getElem?_map,
        List.getElem?_range, hqi, if_pos]
      rfl
    · intro hsel
      rw [answerLabels, hsel]
      rfl

/-- Witness for C5: one single-select question (A, B, Other as global
options 1-3) and one multi-select question (X, Y as global options 4-5);
B is toggled on the first question, both X and Y on the second; the reply
"Submit" resolves to the recorded answers. -/
theorem interactive_submit_answers_witness :
    handleInteractiveQuestion
      ⟨[⟨"q1", "Q1", [⟨"A", ""⟩, ⟨"B", ""⟩], false⟩,
        ⟨"q2", "Q2", [⟨"X", ""⟩, ⟨"Y", ""⟩], true⟩],
       [(0, [2]), (1, [4, 5])], [], none,
       [⟨1, 0, "A", false⟩, ⟨2, 0, "B", false⟩, ⟨3, 0, "Other", true⟩,
        ⟨4, 1, "X", false⟩, ⟨5, 1, "Y", false⟩, ⟨6, 1, "Other", true⟩]⟩
      "Submit"
      = .resolved [("Q1", "B"), ("Q2", "X, Y")] := by
  have h := (interactive_submit_answers
      ⟨[⟨"q1", "Q1", [⟨"A", ""⟩, ⟨"B", ""⟩], false⟩,
        ⟨"q2", "Q2", [⟨"X", ""⟩, ⟨"Y", ""⟩], true⟩],
       [(0, [2]), (1, [4, 5])], [], none,
       [⟨1, 0, "A", false⟩, ⟨2, 0, "B", false⟩, ⟨3, 0, "Other", true⟩,
        ⟨4, 1, "X", false⟩, ⟨5, 1, "Y", false⟩, ⟨6, 1, "Other", true⟩]⟩
      "Submit" rfl (by decide)).1
  rw [h]
  decide

/-! ## Session state and background-task cancellation
(`src/sessionManager.ts`)

`AbortController` is modelled by a generation number plus its aborted flag;
`abort()` sets the flag (the generation identifies which controller object
received the signal), and installing a fresh controller bumps the
generation with the flag cleared.  The SDK run handle (`session.query`) is
a handle with a closed flag. -/

/-- A cancellation token: `generation` identifies the controller object,
`aborted` its signalled state. -/
structure AbortCtrl where
  generation : Nat
  aborted : Bool
deriving DecidableEq, Repr

/-- The in-flight run handle (`session.query`); `close()` marks it closed. -/
structure QueryHandle where
  closed : Bool
deriving DecidableEq, Repr

/-- The `SessionInfo` fields the orchestration claims are about. -/
structure Sess where
  sessionId : Option String
  busy : Bool
  messageQueue : List String
  inputChannel : Option (AsyncChannel String)
  query : Option QueryHandle
  abortController : AbortCtrl
  pendingQuestion : Bool
  pendingPlanApproval : Bool
  clearContextOnComplete : Bool
  planToImplement : Option String
  turnCount : Nat
  autoResume : Bool
deriving DecidableEq, Repr

/-- The per-session body of `abortBgTask`: signal the abort handle, close
the input channel (if any), close the run handle (if any), clear the
message queue and the auto-resume flag, clear both pending prompts, and
install a fresh `AbortController`.  The second component is the generation
of the controller that received the abort signal. -/
def abortBgTaskSession (s : Sess) : Sess × Nat :=
  ({ s with
      abortController := ⟨s.abortController.generation + 1, false⟩,
      inputChannel := s.inputChannel.map (fun c => (c.close).1),
      query := s.query.map (fun _ => ⟨true⟩),
      messageQueue := [],
      autoResume := false,
      pendingQuestion := false,
      pendingPlanApproval := false },
   s.abortController.generation)

/-- The per-session body of `abortAllBgTasks`: the same sequence except
that no fresh `AbortController` is installed — the signalled controller
stays on the session. -/
def abortAllBgTasksSession (s : Sess) : Sess × Nat :=
  ({ s with
      abortController := ⟨s.abortController.generation, true⟩,
      inputChannel := s.inputChannel.map (fun c => (c.close).1),
      query := s.query.map (fun _ => ⟨true⟩),
      messageQueue := [],
      autoResume := false,
      pendingQuestion := false,
      pendingPlanApproval := false },
   s.abortController.generation)

/-- A background task record. -/
structure BackgroundTask where
  id : Nat
  session : Sess
  label : String
  startedAt : Nat
deriving DecidableEq, Repr

/-- `abortBgTask` at the task-list level: the matching task's session is
cancelled in place (the task itself is not removed from the list); `none`
when no task has the id. -/
def abortBgTask (tasks : List BackgroundTask) (taskId : Nat) :
    Option (List BackgroundTask) :=
  match tasks.find? (fun t => t.id == taskId) with
  | none => none
  | some _ =>
    some (tasks.map (fun t =>
      if t.id == taskId then { t with session := (abortBgTaskSession t.session).1 }
      else t))

/-- `abortAllBgTasks`: every task's session is cancelled and the per-thread
task list is deleted; returns the cancelled sessions (still referenced by
their running agents) and the count. -/
def abortAllBgTasks (tasks : List BackgroundTask) : List Sess × Nat :=
  (tasks.map (fun t => (abortAllBgTasksSession t.session).1), tasks.length)

/-- A concrete busy background session: open channel with one buffered
message, open run handle, a queued message, both prompts pending. -/
def exBgSess : Sess :=
  { sessionId := some "sid-1", busy := true,
    messageQueue := ["queued"],
    inputChannel := some ⟨["m"], 0, false⟩,
    query := some ⟨false⟩,
    abortController := ⟨0, false⟩,
    pendingQuestion := true, pendingPlanApproval := true,
    clearContextOnComplete := false, planToImplement := none,
    turnCount := 0, autoResume := true }

/-- C3 counterexample: `abortAllBgTasks` omits the install-a-fresh-handle
step — after it runs, the session still holds the signalled (aborted)
controller, same generation, where a freshly installed controller would be
un-aborted (as `abortBgTask` produces). -/
theorem abortAllBgTasks_no_fresh_controller :
    (abortAllBgTasksSession exBgSess).1.abortController.aborted = true ∧
    (abortAllBgTasksSession exBgSess).1.abortController.generation
      = exBgSess.abortController.generation ∧
    (abortBgTaskSession exBgSess).1.abortController.aborted = false ∧
    (abortBgTaskSession exBgSess).1.abortController.generation
      = exBgSess.abortController.generation + 1 := by
  refine ⟨rfl, rfl, rfl, rfl⟩

/-- C3 (amended): both abort operations perform the cancellation sequence
on every affected session — signal the abort handle, close the input
channel, close the run handle, clear the message queue (and auto-resume),
and clear both pending prompts — and `abortBgTask` additionally installs a
fresh `AbortController`, while `abortAllBgTasks` leaves the signalled
controller in place (its tasks being discarded wholesale). -/
theorem abort_bg_cancellation_steps (s : Sess) (c : AsyncChannel String) :
    ((abortBgTaskSession s).2 = s.abortController.generation ∧
     (s.inputChannel = some c →
       (abortBgTaskSession s).1.inputChannel = some ((c.close).1) ∧
       ((c.close).1).closed = true) ∧
     (abortBgTaskSession s).1.query = s.query.map (fun _ => ⟨true⟩) ∧
     (abortBgTaskSession s).1.messageQueue = [] ∧
     (abortBgTaskSession s).1.autoResume = false ∧
     (abortBgTaskSession s).1.pendingQuestion = false ∧
     (abortBgTaskSession s).1.pendingPlanApproval = false ∧
     (abortBgTaskSession s).1.abortController
       = ⟨s.abortController.generation + 1, false⟩) ∧
    ((abortAllBgTasksSession s).2 = s.abortController.generation ∧
     (s.inputChannel = some c →
       (abortAllBgTasksSession s).1.inputChannel = some ((c.close).1) ∧
       ((c.close).1).closed = true) ∧
     (abortAllBgTasksSession s).1.query = s.query.map (fun _ => ⟨true⟩) ∧
     (abortAllBgTasksSession s).1.messageQueue = [] ∧
     (abortAllBgTasksSession s).1.autoResume = false ∧
     (abortAllBgTasksSession s).1.pendingQuestion = false ∧
     (abortAllBgTasksSession s).1.pendingPlanApproval = false ∧
     (abortAllBgTasksSession s).1.abortController
       = ⟨s.abortController.generation, true⟩) ∧
    (∀ tasks : List BackgroundTask,
      (abortAllBgTasks tasks).2 = tasks.length ∧
      (abortAllBgTasks tasks).1
        = tasks.map (fun t => (abortAllBgTasksSession t.session).1)) := by
  refine ⟨⟨rfl, ?_, rfl, rfl, rfl, rfl, rfl, rfl⟩,
          ⟨rfl, ?_, rfl, rfl, rfl, rfl, rfl, rfl⟩,
          fun tasks => ⟨rfl, rfl⟩⟩
  · intro hc
    constructor
    · simp [abortBgTaskSession, hc]
    · rcases c with ⟨buf, w, cl⟩
      cases cl <;> simp [AsyncChannel.close]
  · intro hc
    constructor
    · simp [abortAllBgTasksSession, hc]
    · rcases c with ⟨buf, w, cl⟩
      cases cl <;> simp [AsyncChannel.close]

/-- Witness for the amended C3 at the concrete busy background session. -/
theorem abort_bg_cancellation_steps_witness :
    (abortBgTaskSession exBgSess).1.messageQueue = [] ∧
    (abortAllBgTasksSession exBgSess).1.inputChannel
      = some ⟨["m"], 0, true⟩ := by
  have h := abort_bg_cancellation_steps exBgSess ⟨["m"], 0, false⟩
  refine ⟨h.1.2.2.2.1, ?_⟩
  have h₂ := (h.2.1.2.1 (by rfl)).1
  rw [h₂]
  rfl

/-! ## Conversation Registry persistence round-trip
(`cleanupStaleSessions` in `src/sessionManager.ts`, the restore path of
`handleThreadMessage` in `src/messageHandler.ts`, and `src/sessionStore.ts`)

The in-memory sessions map and the durable `sessions.json` store are
modelled as finite maps (functions to `Option`); JS numbers holding costs
are `Rat`.  Eviction compares `now - lastActivity > timeout`. -/

/-- One durable `sessions.json` record. -/
structure StoreEntry where
  sessionId : String
  cost : Rat
  cwd : String
deriving DecidableEq, Repr

/-- The in-memory per-thread session fields the round-trip is about. -/
structure SessMem where
  sessionId : Option String
  cwd : String
  totalCost : Rat
  lastActivity : Nat
deriving DecidableEq, Repr

/-- Registry: in-memory sessions map plus the durable record store. -/
structure Registry where
  sessions : String → Option SessMem
  store : String → Option StoreEntry

/-- `createSession` (the fields modelled here). -/
def createSessionMem (cwd : String) (now : Nat) : SessMem :=
  ⟨none, cwd, 0, now⟩

/-- `getPersistedSessionId`. -/
def getPersistedSessionId (r : Registry) (t : String) : Option String :=
  (r.store t).map (fun e => e.sessionId)

/-- `getPersistedCwd` (empty string when absent). -/
def getPersistedCwd (r : Registry) (t : String) : String :=
  ((r.store t).map (fun e => e.cwd)).getD ""

/-- `getPersistedCost` (zero when absent). -/
def getPersistedCost (r : Registry) (t : String) : Rat :=
  ((r.store t).map (fun e => e.cost)).getD 0

/-- `cleanupStaleSessions`: remove every in-memory session idle beyond the
timeout; the durable store is deliberately untouched. -/
def cleanupStaleSessions (timeoutMs now : Nat) (r : Registry) : Registry :=
  { r with sessions := fun t =>
      match r.sessions t with
      | some m => if timeoutMs < now - m.lastActivity then none else some m
      | none => none }

/-- Outcome of the thread-message restore path when no in-memory session
exists. -/
inductive RestoreResult where
  | noPersistedId
  | noCwd
  | restored (r : Registry) (m : SessMem)

/-- The restore path of `handleThreadMessage`: look up the persisted
session id (reply and stop when absent), then the persisted working
directory (reply and stop when falsy), then create a fresh in-memory
session and pre-populate it with the persisted id and accumulated cost. -/
def restoreThreadSession (r : Registry) (t : String) (now : Nat) :
    RestoreResult :=
  match getPersistedSessionId r t with
  | none => .noPersistedId
  | some pid =>
    let cwd := getPersistedCwd r t
    if cwd = "" then .noCwd
    else
      let m := createSessionMem cwd now
      let m := { m with sessionId := some pid,
                        totalCost := getPersistedCost r t }
      .restored { r with sessions := fun t' =>
                    if t' = t then some m else r.sessions t' } m

/-- C7: eviction of an idle session followed by a later message in the same
thread round-trips the durable record — the eviction removes the in-memory
session without erasing the persisted record, and the restored session has
the pre-eviction remote session id, working directory, and accumulated
cost. -/
theorem eviction_restore_roundtrip (r : Registry) (t : String) (m : SessMem)
    (e : StoreEntry) (timeoutMs now later : Nat)
    (hm : r.sessions t = some m)
    (he : r.store t = some e)
    (hid : m.sessionId = some e.sessionId)
    (hcwd : m.cwd = e.cwd)
    (hcost : m.totalCost = e.cost)
    (hstale : timeoutMs < now - m.lastActivity)
    (hcwdNE : e.cwd ≠ "") :
    (cleanupStaleSessions timeoutMs now r).sessions t = none ∧
    (cleanupStaleSessions timeoutMs now r).store t = some e ∧
    ∃ r' m', restoreThreadSession (cleanupStaleSessions timeoutMs now r) t later
        = .restored r' m' ∧
      m'.sessionId = m.sessionId ∧
      m'.cwd = m.cwd ∧
      m'.totalCost = m.totalCost ∧
      r'.sessions t = some m' := by
  have hclean : (cleanupStaleSessions timeoutMs now r).sessions t = none := by
    simp [cleanupStaleSessions, hm, hstale]
  have hstore : (cleanupStaleSessions timeoutMs now r).store t = some e := he
  have hpid : getPersistedSessionId (cleanupStaleSessions timeoutMs now r) t
      = some e.sessionId := by simp [getPersistedSessionId, hstore]
  have hgw : getPersistedCwd (cleanupStaleSessions timeoutMs now r) t
      = e.cwd := by simp [getPersistedCwd, hstore]
  have hgc : getPersistedCost (cleanupStaleSessions timeoutMs now r) t
      = e.cost := by simp [getPersistedCost, hstore]
  have hres : restoreThreadSession (cleanupStaleSessions timeoutMs now r) t later
      = .restored
          { cleanupStaleSessions timeoutMs now r with
            sessions := fun t' =>
              if t' = t then some ⟨some e.sessionId, e.cwd, e.cost, later⟩
              else (cleanupStaleSessions timeoutMs now r).sessions t' }
          ⟨some e.sessionId, e.cwd, e.cost, later⟩ := by
    rw [restoreThreadSession, hpid]
    simp only [hgw, hgc, if_neg hcwdNE, createSessionMem]
  refine ⟨hclean, hstore, _, _, hres, ?_, hcwd.symm, hcost.symm, ?_⟩
  · rw [hid]
  · simp

/-- Witness for C7 at a concrete one-thread registry. -/
theorem eviction_restore_roundtrip_witness :
    ∃ r' m',
      restoreThreadSession
        (cleanupStaleSessions 1000 5000
          ⟨fun t => if t = "th1" then some ⟨some "sid", "/w", 3, 100⟩ else none,
           fun t => if t = "th1" then some ⟨"sid", 3, "/w"⟩ else none⟩)
        "th1" 6000
        = .restored r' m' ∧
      m'.sessionId = some "sid" ∧ m'.cwd = "/w" ∧ m'.totalCost = 3 := by
  have h := eviction_restore_roundtrip
    ⟨fun t => if t = "th1" then some ⟨some "sid", "/w", 3, 100⟩ else none,
     fun t => if t = "th1" then some ⟨"sid", 3, "/w"⟩ else none⟩
    "th1" ⟨some "sid", "/w", 3, 100⟩ ⟨"sid", 3, "/w"⟩ 1000 5000 6000
    (by simp) (by simp) rfl rfl rfl (by norm_num) (by decide)
  obtain ⟨-, -, r', m', hres, hid, hcwd, hcost, -⟩ := h
  exact ⟨r', m', hres, by rw [hid], by rw [hcwd], by rw [hcost]⟩

/-! ## Stream Orchestrator: run entry, teardown, busy gate
(`runAgent` in `src/agentRunner.ts` and the busy gate of
`handleThreadMessage` in `src/messageHandler.ts`)

One foreground Session's orchestration state.  `activeRuns` is a ghost
counter of runs currently in flight (from `runAgent` entry until its
`finally` block completes), and `tearingDown` marks the window inside the
`finally` block after the channel has been closed and drained; neither
exists in the source — they let the single-flight property be stated.
Cost accounting (`addCost`) goes to the durable store modelled in the
Registry section and is not repeated here. -/

/-- `createSession` defaults for the orchestration fields. -/
def initialSess : Sess :=
  { sessionId := none, busy := false, messageQueue := [],
    inputChannel := none, query := none, abortController := ⟨0, false⟩,
    pendingQuestion := false, pendingPlanApproval := false,
    clearContextOnComplete := false, planToImplement := none,
    turnCount := 0, autoResume := false }

/-- `runAgent` entry: mark the session busy, install a fresh Handoff
Channel, and (once the query is built) the run handle. -/
def runAgentEnter (s : Sess) : Sess :=
  { s with busy := true, inputChannel := some AsyncChannel.create,
           query := some ⟨false⟩ }

/-- First phase of the `finally` block: close the Handoff Channel, drain
the buffered-but-unconsumed injected messages onto the front of the queue,
and clear the channel and run-handle references. -/
def teardownDrain (s : Sess) : Sess :=
  match s.inputChannel with
  | none => { s with inputChannel := none, query := none }
  | some c =>
    { s with messageQueue := ((c.close).1.drain).2 ++ s.messageQueue,
             inputChannel := none, query := none }

/-- The synthesized fresh-session instruction for an approved plan. -/
def planInstruction (plan : String) : String :=
  "Implement the following plan:\n\n" ++ plan

/-- The synthesized auto-resume instruction. -/
def continueInstruction : String := "Continue from where you left off."

/-- The clear-context block of the `finally` teardown: reset the remote
session id and auto-resume flag, install a fresh cancellation handle, and
queue the plan (when one was captured and non-empty, JS truthiness) at the
front. -/
def applyClearContext (s : Sess) : Sess :=
  if s.clearContextOnComplete then
    let s₁ := { s with clearContextOnComplete := false, sessionId := none,
                       autoResume := false,
                       abortController :=
                         ⟨s.abortController.generation + 1, false⟩,
                       planToImplement := none }
    match s.planToImplement with
    | some plan =>
      if plan = "" then s₁
      else { s₁ with messageQueue := planInstruction plan :: s₁.messageQueue }
    | none => s₁
  else s

/-- The auto-resume block of the `finally` teardown: queue the synthetic
continuation at the front. -/
def applyAutoResume (s : Sess) : Sess :=
  if s.autoResume then
    { s with autoResume := false,
             messageQueue := continueInstruction :: s.messageQueue }
  else s

/-- The queue as it stands when the teardown reaches its final shift. -/
def effectiveQueue (s : Sess) : List String :=
  (applyAutoResume (applyClearContext s)).messageQueue

/-- Second phase of the `finally` block: run the clear-context and
auto-resume blocks, then `shift()` exactly one queued entry and test it
with JS truthiness (`if (nextPrompt)`): a non-empty shifted prompt starts
a new run immediately (the session stays busy); an absent **or empty**
shifted prompt takes the else branch, which marks the session idle — even
when further entries remain behind an empty one.  The second component is
the prompt dispatched to the next run, if any. -/
def teardownFinish (s : Sess) : Sess × Option String :=
  let s₁ := applyAutoResume (applyClearContext s)
  match s₁.messageQueue with
  | [] => ({ s₁ with busy := false }, none)
  | p :: rest =>
    if p = "" then ({ s₁ with messageQueue := rest, busy := false }, none)
    else (runAgentEnter { s₁ with messageQueue := rest }, some p)

/-- The `!abort` command body (`handleCommand` in `src/messageHandler.ts`):
signal the abort handle, close (but keep) the channel and run handle, clear
the queue and auto-resume flag, clear both pending prompts, install a fresh
handle; `busy` is deliberately left for the run's own teardown. -/
def abortCommandSess (s : Sess) : Sess :=
  { s with
      abortController := ⟨s.abortController.generation + 1, false⟩,
      inputChannel := s.inputChannel.map (fun c => (c.close).1),
      query := s.query.map (fun _ => ⟨true⟩),
      messageQueue := [],
      autoResume := false,
      pendingQuestion := false,
      pendingPlanApproval := false }

/-- A Session plus the ghost run counter and teardown-phase marker. -/
structure OSess where
  sess : Sess
  activeRuns : Nat
  tearingDown : Bool
deriving DecidableEq, Repr

/-- The interleavable events acting on one foreground Session: a run
starting on an idle session (new thread message or idle follow-up), the
busy gate's queue/inject of a follow-up, the `!abort` command, the run's
own mid-stream field updates, and the two teardown phases. -/
inductive OStep : OSess → OSess → Prop
  | startRun (s : OSess) (h : s.sess.busy = false) :
      OStep s ⟨runAgentEnter s.sess, s.activeRuns + 1, false⟩
  | queueFollowUp (s : OSess) (p : String)
      (hbusy : s.sess.busy = true)
      (hq : s.sess.pendingQuestion = false)
      (hp : s.sess.pendingPlanApproval = false)
      (hch : ∀ c, s.sess.inputChannel = some c → c.closed = true) :
      OStep s ⟨{ s.sess with messageQueue := s.sess.messageQueue ++ [p] },
               s.activeRuns, s.tearingDown⟩
  | injectFollowUp (s : OSess) (p : String) (c : AsyncChannel String)
      (hbusy : s.sess.busy = true)
      (hq : s.sess.pendingQuestion = false)
      (hp : s.sess.pendingPlanApproval = false)
      (hch : s.sess.inputChannel = some c) (hopen : c.closed = false) :
      OStep s ⟨{ s.sess with inputChannel := some ((c.push p).1) },
               s.activeRuns, s.tearingDown⟩
  | abortCommand (s : OSess) (hbusy : s.sess.busy = true) :
      OStep s ⟨abortCommandSess s.sess, s.activeRuns, s.tearingDown⟩
  | midRunUpdate (s : OSess) (sid : Option String) (cc : Bool)
      (plan : Option String) (ar : Bool) (tc : Nat) (pqn ppa : Bool)
      (h : s.activeRuns = 1) :
      OStep s ⟨{ s.sess with sessionId := sid,
                             clearContextOnComplete := cc,
                             planToImplement := plan, autoResume := ar,
                             turnCount := tc, pendingQuestion := pqn,
                             pendingPlanApproval := ppa },
               s.activeRuns, s.tearingDown⟩
  | beginTeardown (s : OSess) (h : s.activeRuns = 1)
      (ht : s.tearingDown = false) :
      OStep s ⟨teardownDrain s.sess, 1, true⟩
  | finishTeardown (s : OSess) (ht : s.tearingDown = true) :
      OStep s ⟨(teardownFinish s.sess).1,
               if (teardownFinish s.sess).2.isSome then 1 else 0, false⟩

/-- States reachable from a freshly created Session. -/
inductive SessReachable : OSess → Prop
  | init : SessReachable ⟨initialSess, 0, false⟩
  | step {s s' : OSess} :
      SessReachable s → OStep s s' → SessReachable s'

/-- The busy-gate invariant: at most one run is in flight; `busy` holds
exactly while one is; the teardown window and an installed channel both
certify an in-flight run. -/
def BusyInv (s : OSess) : Prop :=
  s.activeRuns ≤ 1 ∧
  (s.sess.busy = true ↔ s.activeRuns = 1) ∧
  (s.tearingDown = true → s.activeRuns = 1 ∧ s.sess.inputChannel = none) ∧
  (∀ c, s.sess.inputChannel = some c →
    s.activeRuns = 1 ∧ s.tearingDown = false)


lemma applyClearContext_fields (s : Sess) :
    (applyClearContext s).busy = s.busy ∧
    (applyClearContext s).inputChannel = s.inputChannel := by
  by_cases hcc : s.clearContextOnComplete
  · cases hp : s.planToImplement with
    | none => simp [applyClearContext, hcc, hp]
    | some plan =>
      by_cases hpe : plan = "" <;> simp [applyClearContext, hcc, hp, hpe]
  · simp [applyClearContext, hcc]

lemma applyAutoResume_fields (s : Sess) :
    (applyAutoResume s).busy = s.busy ∧
    (applyAutoResume s).inputChannel = s.inputChannel := by
  by_cases har : s.autoResume <;> simp [applyAutoResume, har]

lemma teardownFinish_eq (s : Sess) :
    teardownFinish s =
      match effectiveQueue s with
      | [] => ({ applyAutoResume (applyClearContext s) with busy := false },
               none)
      | p :: rest =>
          if p = "" then
            ({ applyAutoResume (applyClearContext s) with
               messageQueue := rest, busy := false },
             none)
          else
            (runAgentEnter
              { applyAutoResume (applyClearContext s) with
                messageQueue := rest },
             some p) := rfl

lemma teardownFinish_nil (s : Sess) (h : effectiveQueue s = []) :
    teardownFinish s
      = ({ applyAutoResume (applyClearContext s) with busy := false },
         none) := by
  have htf := teardownFinish_eq s
  rw [h] at htf
  exact htf

lemma teardownFinish_cons (s : Sess) (p : String) (rest : List String)
    (h : effectiveQueue s = p :: rest) :
    teardownFinish s
      = if p = "" then
          ({ applyAutoResume (applyClearContext s) with
             messageQueue := rest, busy := false },
           none)
        else
          (runAgentEnter
            { applyAutoResume (applyClearContext s) with
              messageQueue := rest },
           some p) := by
  have htf := teardownFinish_eq s
  rw [h] at htf
  exact htf

lemma ostep_preserves_businv {s s' : OSess} (hs : BusyInv s)
    (st : OStep s s') : BusyInv s' := by
  obtain ⟨h1, h2, h3, h4⟩ := hs
  cases st with
  | startRun h =>
    have hne : ¬ s.activeRuns = 1 := fun he => by
      rw [h2.mpr he] at h; exact absurd h (by simp)
    have hz : s.activeRuns = 0 := by omega
    refine ⟨by simp [hz], ?_, ?_, ?_⟩
    · simp [runAgentEnter, hz]
    · simp
    · intro c _
      exact ⟨by simp [hz], rfl⟩
  | queueFollowUp p hbusy hq hp hch =>
    exact ⟨h1, h2, fun ht => h3 ht, fun c hc => h4 c hc⟩
  | injectFollowUp p c hbusy hq hp hch hopen =>
    refine ⟨h1, h2, ?_, ?_⟩
    · intro ht
      obtain ⟨hr, hchan⟩ := h3 ht
      rw [hch] at hchan
      cases hchan
    · intro c' _
      exact h4 c hch
  | abortCommand hbusy =>
    refine ⟨h1, h2, ?_, ?_⟩
    · intro ht
      obtain ⟨hr, hchan⟩ := h3 ht
      refine ⟨hr, ?_⟩
      simp [abortCommandSess, hchan]
    · intro c' hc'
      cases hch : s.sess.inputChannel with
      | none => simp [abortCommandSess, hch] at hc'
      | some c₀ => exact h4 c₀ hch
  | midRunUpdate sid cc plan ar tc pqn ppa h =>
    exact ⟨h1, h2, fun ht => h3 ht, fun c hc => h4 c hc⟩
  | beginTeardown h ht =>
    refine ⟨by simp, ?_, ?_, ?_⟩
    · have hb := h2.mpr h
      constructor
      · intro _; rfl
      · intro _
        cases hch : s.sess.inputChannel <;>
          simp [teardownDrain, hch, hb]
    · intro _
      refine ⟨rfl, ?_⟩
      cases hch : s.sess.inputChannel <;> simp [teardownDrain, hch]
    · intro c hc
      exfalso
      cases hch : s.sess.inputChannel <;>
        rw [teardownDrain] at hc <;> rw [hch] at hc <;> simp at hc
  | finishTeardown ht =>
    obtain ⟨hr, hchan⟩ := h3 ht
    have hch₂ : (applyAutoResume (applyClearContext s.sess)).inputChannel
        = none := by
      rw [(applyAutoResume_fields _).2, (applyClearContext_fields _).2,
        hchan]
    cases hq : effectiveQueue s.sess with
    | nil =>
      rw [teardownFinish_nil s.sess hq]
      refine ⟨by simp, by simp, by simp, ?_⟩
      intro c hc
      simp only at hc
      rw [hch₂] at hc
      cases hc
    | cons p rest =>
      by_cases hpe : p = ""
      · rw [teardownFinish_cons s.sess p rest hq, if_pos hpe]
        refine ⟨by simp, by simp, by simp, ?_⟩
        intro c hc
        simp only at hc
        rw [hch₂] at hc
        cases hc
      · rw [teardownFinish_cons s.sess p rest hq, if_neg hpe]
        refine ⟨by simp, by simp [runAgentEnter], by simp, ?_⟩
        intro c _
        simp [runAgentEnter]

lemma sessReachable_businv {s : OSess} (h : SessReachable s) : BusyInv s := by
  induction h with
  | init =>
    refine ⟨by simp, by simp [initialSess], by simp, ?_⟩
    intro c hc
    simp [initialSess] at hc
  | step _ st ih => exact ostep_preserves_businv ih st

/-- C1 counterexample: a queued empty-string instruction (producible by
`buildPrompt` on a message with no text content and no saved attachments)
refutes the claim as stated — the teardown's shift removes it, but the JS
truthiness test `if (nextPrompt)` then takes the idle branch: no next run
is started and `busy` is set to false even though another instruction
still sits in the queue. -/
theorem teardown_empty_prompt_stalls :
    effectiveQueue
        { initialSess with busy := true, messageQueue := ["", "next"] }
      = ["", "next"] ∧
    (teardownFinish
        { initialSess with busy := true, messageQueue := ["", "next"] }).2
      = none ∧
    (teardownFinish
        { initialSess with busy := true,
                           messageQueue := ["", "next"] }).1.busy
      = false ∧
    (teardownFinish
        { initialSess with busy := true,
                           messageQueue := ["", "next"] }).1.messageQueue
      = ["next"] := by
  refine ⟨by decide, by decide, by decide, by decide⟩

/-- C1 (amended): along every interleaving of run starts, follow-up
queueing/injection, aborts, mid-run updates, and the two teardown phases,
at most one run is ever in flight and `busy` holds exactly while one is
(so no two runs are ever simultaneously active for one foreground
Session); the teardown's final shift removes exactly the head of the queue
(FIFO) and, when that head is non-empty, starts the next run with it while
the session is still busy; when the shifted head is the empty string, no
run is started and `busy` is set to false with the remaining entries left
in the queue; hence `busy` becomes false exactly when the queue is
confirmed empty or its first entry is empty. -/
theorem single_flight_busy_gate_amended :
    (∀ s : OSess, SessReachable s →
      s.activeRuns ≤ 1 ∧ (s.sess.busy = true ↔ s.activeRuns = 1)) ∧
    (∀ s : Sess, (runAgentEnter s).busy = true) ∧
    (∀ (s : Sess) (p : String) (rest : List String),
      effectiveQueue s = p :: rest → p ≠ "" →
      (teardownFinish s).2 = some p ∧
      (teardownFinish s).1.busy = true ∧
      (teardownFinish s).1.messageQueue = rest) ∧
    (∀ (s : Sess) (rest : List String),
      effectiveQueue s = "" :: rest →
      (teardownFinish s).2 = none ∧
      (teardownFinish s).1.busy = false ∧
      (teardownFinish s).1.messageQueue = rest) ∧
    (∀ s : Sess, (teardownFinish s).1.busy = false ↔
      (effectiveQueue s = [] ∨ (effectiveQueue s).head? = some "")) := by
  refine ⟨fun s hs => ⟨(sessReachable_businv hs).1,
      (sessReachable_businv hs).2.1⟩, fun s => rfl, ?_, ?_, ?_⟩
  · intro s p rest hq hpe
    rw [teardownFinish_cons s p rest hq, if_neg hpe]
    exact ⟨rfl, rfl, rfl⟩
  · intro s rest hq
    rw [teardownFinish_cons s "" rest hq, if_pos rfl]
    exact ⟨rfl, rfl, rfl⟩
  · intro s
    cases hq : effectiveQueue s with
    | nil =>
      rw [teardownFinish_nil s hq]
      simp [hq]
    | cons p rest =>
      by_cases hpe : p = ""
      · rw [teardownFinish_cons s p rest hq, if_pos hpe]
        simp [hq, hpe]
      · rw [teardownFinish_cons s p rest hq, if_neg hpe]
        simp [runAgentEnter, hq, hpe]

/-- Witness for the amended C1: the freshly created Session is reachable
and satisfies the gate invariant; a teardown with one non-empty queued
instruction hands it off with the session still busy; one whose queue head
is empty drops it and goes idle with the tail kept. -/
theorem single_flight_busy_gate_amended_witness :
    ((⟨initialSess, 0, false⟩ : OSess).activeRuns ≤ 1 ∧
      ((⟨initialSess, 0, false⟩ : OSess).sess.busy = true ↔
        (⟨initialSess, 0, false⟩ : OSess).activeRuns = 1)) ∧
    (teardownFinish
        { initialSess with busy := true, messageQueue := ["next"] }).2
      = some "next" ∧
    (teardownFinish
        { initialSess with busy := true, messageQueue := ["next"] }).1.busy
      = true ∧
    (teardownFinish
        { initialSess with busy := true,
                           messageQueue := ["", "tail"] }).1.messageQueue
      = ["tail"] := by
  refine ⟨single_flight_busy_gate_amended.1 _ SessReachable.init, ?_, ?_, ?_⟩
  · exact (single_flight_busy_gate_amended.2.2.1
      { initialSess with busy := true, messageQueue := ["next"] }
      "next" [] (by decide) (by decide)).1
  · exact (single_flight_busy_gate_amended.2.2.1
      { initialSess with busy := true, messageQueue := ["next"] }
      "next" [] (by decide) (by decide)).2.1
  · exact (single_flight_busy_gate_amended.2.2.2.1
      { initialSess with busy := true, messageQueue := ["", "tail"] }
      ["tail"] (by decide)).2.2

/-! ## Turn-limit auto-resume (`handleMessage`, `case "result"`, subtype
`error_max_turns`, in `src/agentRunner.ts`) -/

/-- The buffered injected messages of the session's channel. -/
def channelBuffer (s : Sess) : List String :=
  (s.inputChannel.map (fun c => c.buffer)).getD []

lemma close_drain_buffer (c : AsyncChannel String) :
    (((c.close).1).drain).2 = c.buffer := by
  rw [AsyncChannel.close]
  split <;> rfl

/-- The `error_max_turns` result handler: accumulate the run's turns into
the per-request tally; at or above the configured ceiling post the
ceiling-reached notice (the returned flag) and reset the tally; below it
set the auto-resume flag.  (The cost accumulation on this path goes to the
durable store, modelled in the Registry section.) -/
def handleResultMaxTurns (maxTotalTurns : Nat) (s : Sess) (numTurns : Nat) :
    Sess × Bool :=
  let s₁ := { s with turnCount := s.turnCount + numTurns }
  if maxTotalTurns ≤ s₁.turnCount then ({ s₁ with turnCount := 0 }, true)
  else ({ s₁ with autoResume := true }, false)

lemma handleResultMaxTurns_eq (cfg : Nat) (s : Sess) (n : Nat) :
    handleResultMaxTurns cfg s n
      = if cfg ≤ s.turnCount + n then ({ s with turnCount := 0 }, true)
        else ({ s with turnCount := s.turnCount + n, autoResume := true },
              false) := by
  rw [handleResultMaxTurns]

/-- C6: a run ending in `error_max_turns` with the cumulative tally still
below the ceiling posts no notice, increments the tally by the run's turn
count, and the ensuing teardown starts exactly one new run whose prompt is
the synthetic continuation placed at the front of the queue (the session
stays busy, and the drained injected messages plus the prior queue are
preserved behind it); at or above the ceiling the notice is posted, the
tally resets, and no auto-resume run is started (with nothing queued the
session simply goes idle).  Hypotheses: no clear-context approval was
granted during the run and the auto-resume flag was not already set —
both are cleared on every teardown. -/
theorem auto_resume_turn_ceiling (cfg : Nat) (s : Sess) (n : Nat)
    (hcc : s.clearContextOnComplete = false)
    (har : s.autoResume = false) :
    (s.turnCount + n < cfg →
      handleResultMaxTurns cfg s n
        = ({ s with turnCount := s.turnCount + n, autoResume := true },
           false) ∧
      (teardownFinish (teardownDrain (handleResultMaxTurns cfg s n).1)).2
        = some continueInstruction ∧
      (teardownFinish
          (teardownDrain (handleResultMaxTurns cfg s n).1)).1.busy = true ∧
      (teardownFinish
          (teardownDrain (handleResultMaxTurns cfg s n).1)).1.messageQueue
        = channelBuffer s ++ s.messageQueue) ∧
    (cfg ≤ s.turnCount + n →
      handleResultMaxTurns cfg s n = ({ s with turnCount := 0 }, true) ∧
      (s.messageQueue = [] → s.inputChannel = none →
        (teardownFinish (teardownDrain (handleResultMaxTurns cfg s n).1)).2
          = none ∧
        (teardownFinish
            (teardownDrain (handleResultMaxTurns cfg s n).1)).1.busy
          = false)) := by
  constructor
  · intro hlt
    have h₁ : handleResultMaxTurns cfg s n
        = ({ s with turnCount := s.turnCount + n, autoResume := true },
           false) := by
      rw [handleResultMaxTurns_eq, if_neg (by omega)]
    have h₂ : teardownDrain (handleResultMaxTurns cfg s n).1
        = { s with turnCount := s.turnCount + n, autoResume := true,
                   inputChannel := none, query := none,
                   messageQueue := channelBuffer s ++ s.messageQueue } := by
      rw [h₁]
      cases hch : s.inputChannel with
      | none => simp [teardownDrain, hch, channelBuffer]
      | some c =>
        simp [teardownDrain, hch, channelBuffer, close_drain_buffer]
    have h₃ : teardownFinish (teardownDrain (handleResultMaxTurns cfg s n).1)
        = (runAgentEnter
            { s with turnCount := s.turnCount + n, autoResume := false,
                     inputChannel := none, query := none,
                     messageQueue := channelBuffer s ++ s.messageQueue },
           some continueInstruction) := by
      have hne : continueInstruction ≠ "" := by decide
      rw [h₂, teardownFinish_eq]
      simp [effectiveQueue, applyClearContext, hcc, applyAutoResume, hne]
    exact ⟨h₁, by rw [h₃], by rw [h₃]; rfl, by rw [h₃]; rfl⟩
  · intro hge
    have h₁ : handleResultMaxTurns cfg s n = ({ s with turnCount := 0 },
        true) := by
      rw [handleResultMaxTurns_eq, if_pos hge]
    refine ⟨h₁, ?_⟩
    intro hq hch
    have h₂ : teardownDrain (handleResultMaxTurns cfg s n).1
        = { s with turnCount := 0, inputChannel := none, query := none } := by
      rw [h₁]
      simp [teardownDrain, hch, hq]
    have h₃ : teardownFinish (teardownDrain (handleResultMaxTurns cfg s n).1)
        = ({ s with turnCount := 0, inputChannel := none, query := none,
                    busy := false }, none) := by
      rw [h₂, teardownFinish_eq]
      simp [effectiveQueue, applyClearContext, hcc, applyAutoResume, har, hq]
    exact ⟨by rw [h₃], by rw [h₃]⟩

/-- Witness for C6 at a concrete session 60 turns into a 200-turn ceiling
(below), and one at the ceiling with an empty queue. -/
theorem auto_resume_turn_ceiling_witness :
    (handleResultMaxTurns 200
        { initialSess with busy := true, turnCount := 10 } 50).2 = false ∧
    (teardownFinish (teardownDrain (handleResultMaxTurns 200
        { initialSess with busy := true, turnCount := 10 } 50).1)).2
      = some continueInstruction ∧
    (handleResultMaxTurns 200
        { initialSess with busy := true, turnCount := 180 } 30).2 = true ∧
    (teardownFinish (teardownDrain (handleResultMaxTurns 200
        { initialSess with busy := true, turnCount := 180 } 30).1)).1.busy
      = false := by
  have hb := (auto_resume_turn_ceiling 200
    { initialSess with busy := true, turnCount := 10 } 50 rfl rfl).1
    (by decide)
  have hc := (auto_resume_turn_ceiling 200
    { initialSess with busy := true, turnCount := 180 } 30 rfl rfl).2
    (by decide)
  refine ⟨by rw [hb.1], hb.2.1, by rw [hc.1], (hc.2 rfl rfl).2⟩
